import Mathlib

/-!
Verification of the schema-driven table materializer and data loader
(`backend/app/services/postgres.py` and the `/api/migrate` and `/api/query`
handlers in `backend/app/main.py`).

Python strings are modelled as `List Char`; the regular expressions used by
the source are hand-compiled into deterministic matching functions that follow
the semantics of Python's `re` module on those patterns (leftmost match,
greedy quantifiers, scanning restart after a non-overlapping match).
Database effects are modelled by explicit state passing: a connection buffers
statements, `commit` publishes the buffer into the committed log, and closing
a connection without committing discards the buffer (psycopg2 semantics).
-/

/-- The ASCII whitespace characters matched by Python's `\s` and `str.strip()`. -/
def isPyWs (c : Char) : Bool :=
  c = ' ' || c = '\t' || c = '\n' || c = '\r' || c = '\x0b' || c = '\x0c'

/-- A character matched by Python's `\w` (ASCII range). -/
def isWordChar (c : Char) : Bool :=
  c.isAlpha || c.isDigit || c = '_'

/-- ASCII lower-casing of one character, as Python `str.lower` does on ASCII. -/
def pyLowerChar (c : Char) : Char := c.toLower

/-- ASCII upper-casing of one character, as Python `str.upper` does on ASCII. -/
def pyUpperChar (c : Char) : Char := c.toUpper

/-- Python `str.lower` on ASCII text. -/
def pyLower (s : List Char) : List Char := s.map pyLowerChar

/-- Python `str.upper` on ASCII text. -/
def pyUpper (s : List Char) : List Char := s.map pyUpperChar

/-- The characters of a Lean string literal, used to write concrete inputs. -/
def strL (s : String) : List Char := s.data

/-- Remove the longest suffix of characters satisfying `p`. -/
def dropEndWhile (p : Char → Bool) : List Char → List Char
  | [] => []
  | c :: cs =>
    match dropEndWhile p cs with
    | [] => if p c then [] else [c]
    | r => c :: r

/-- Python `str.strip()`: remove leading and trailing whitespace. -/
def pyStrip (s : List Char) : List Char :=
  dropEndWhile isPyWs (s.dropWhile isPyWs)

/-- Python `str.startswith(pre)`. -/
def pyStartsWith (s pre : List Char) : Bool :=
  s.take pre.length = pre

/-- Python `str.endswith(c)` for a one-character suffix. -/
def pyEndsWith (s : List Char) (c : Char) : Bool :=
  s.getLast? = some c

/-- Python `str.split(sep)` for a one-character separator: keeps empty pieces,
`""` splits to `[""]`. -/
def pySplitChar (sep : Char) : List Char → List (List Char)
  | [] => [[]]
  | c :: cs =>
    let r := pySplitChar sep cs
    if c = sep then [] :: r
    else
      match r with
      | g :: gs => (c :: g) :: gs
      | [] => [[c]]

/-- Auxiliary for `pySplitWs`: accumulates the current token (reversed). -/
def pySplitWsAux : List Char → List Char → List (List Char)
  | [], acc => if acc.isEmpty then [] else [acc.reverse]
  | c :: cs, acc =>
    if isPyWs c then
      if acc.isEmpty then pySplitWsAux cs []
      else acc.reverse :: pySplitWsAux cs []
    else pySplitWsAux cs (c :: acc)

/-- Python `str.split()` with no argument: split on whitespace runs,
discarding empty tokens. -/
def pySplitWs (s : List Char) : List (List Char) :=
  pySplitWsAux s []

/-- Python `sep.join(parts)` for string parts. -/
def pyJoinWith (sep : List Char) : List (List Char) → List Char
  | [] => []
  | [x] => x
  | x :: xs => x ++ sep ++ pyJoinWith sep xs

/-- Python `str.strip('"')`: remove every leading and trailing double quote. -/
def pyStripQuote (s : List Char) : List Char :=
  dropEndWhile (· = '"') (s.dropWhile (· = '"'))

example : pyStrip (strL "  ab c\n") = strL "ab c" := by decide
example : pySplitChar ';' (strL "a;;b") = [strL "a", [], strL "b"] := by decide
example : pySplitWs (strL "  a  bc \n d") = [strL "a", strL "bc", strL "d"] := by decide
example : pyJoinWith (strL ", ") [strL "a", strL "b"] = strL "a, b" := by decide
example : pyStripQuote (strL "\"users\"") = strL "users" := by decide
example : pyUpper (strL "selEct 1") = strL "SELECT 1" := by decide

/-! ### Hand-compiled models of the regular expressions in `postgres.py`

Each Python pattern is compiled to a deterministic matcher.  Greedy `\s+`,
`\w+` and `[^)]+` are compiled as maximal munch; this is complete for these
patterns because the character following each quantifier in the pattern can
never be matched by the quantifier itself, so Python's backtracking never
succeeds with a shorter munch.  The one genuine backtracking point — the
optional group `(?:IF\s+NOT\s+EXISTS\s+)?` whose body matches while the
following `\w+` fails — is compiled explicitly as a fallback. -/

/-- Consume a literal (letters) case-insensitively, as under `re.IGNORECASE`. -/
def matchLitCI : List Char → List Char → Option (List Char)
  | [], cs => some cs
  | _ :: _, [] => none
  | l :: ls, c :: cs => if c.toLower = l.toLower then matchLitCI ls cs else none

/-- `\s+` with maximal munch: requires at least one whitespace character. -/
def ws1 (cs : List Char) : Option (List Char) :=
  match cs with
  | c :: _ => if isPyWs c then some (cs.dropWhile isPyWs) else none
  | [] => none

/-- `\w+` with maximal munch; returns the captured word and the rest. -/
def wordPlus (cs : List Char) : Option (List Char × List Char) :=
  match cs.takeWhile isWordChar with
  | [] => none
  | w => some (w, cs.dropWhile isWordChar)

/-- `[^)]+` with maximal munch; returns the capture and the rest. -/
def notParenPlus (cs : List Char) : Option (List Char × List Char) :=
  match cs.takeWhile (· ≠ ')') with
  | [] => none
  | w => some (w, cs.dropWhile (· ≠ ')'))

/-- Consume one expected character. -/
def expectChar (ch : Char) : List Char → Option (List Char)
  | c :: cs => if c = ch then some cs else none
  | [] => none

/-- `[""]?`: consume one optional double quote. -/
def quoteOpt : List Char → List Char
  | '"' :: cs => cs
  | cs => cs

/-- `IF\s+NOT\s+EXISTS\s+` (the body of the optional group). -/
def ineAt (cs : List Char) : Option (List Char) := do
  let a ← matchLitCI (strL "IF") cs
  let b ← ws1 a
  let c ← matchLitCI (strL "NOT") b
  let d ← ws1 c
  let e ← matchLitCI (strL "EXISTS") d
  ws1 e

/-- `(\w+)` (when `quoted` is false) or `[""]?(\w+)[""]?` (when true):
the identifier capture at the end of the two CREATE TABLE patterns. -/
def nameAt (quoted : Bool) (cs : List Char) : Option (List Char × List Char) :=
  let p := if quoted then quoteOpt cs else cs
  match wordPlus p with
  | some (w, r) => some (w, if quoted then quoteOpt r else r)
  | none => none

/-- A match of `CREATE\s+TABLE\s+(?:IF\s+NOT\s+EXISTS\s+)?(\w+)` (or its
quoted variant from `create_tables`, line 39) anchored at the head of `cs`;
returns the captured name and the rest after the whole match. -/
def createNameAt (quoted : Bool) (cs : List Char) : Option (List Char × List Char) := do
  let a ← matchLitCI (strL "CREATE") cs
  let b ← ws1 a
  let c ← matchLitCI (strL "TABLE") b
  let p1 ← ws1 c
  match ineAt p1 with
  | some p2 =>
    match nameAt quoted p2 with
    | some res => some res
    | none => nameAt quoted p1
  | none => nameAt quoted p1

/-- `re.search` of the quoted CREATE TABLE pattern: try every start position,
first match wins (used at `postgres.py` line 39). -/
def searchCreateName : List Char → Option (List Char)
  | [] => none
  | c :: cs =>
    match createNameAt true (c :: cs) with
    | some (w, _) => some w
    | none => searchCreateName cs

/-- `re.findall` scan for `_extract_table_names` (unquoted pattern, line 17):
leftmost matches, restart after each match.  The fuel argument starts at the
input length; since every successful match consumes at least one character,
fuel never runs out while characters remain. -/
def findAllCreateNamesAux : Nat → List Char → List (List Char)
  | 0, _ => []
  | _ + 1, [] => []
  | fuel + 1, c :: cs =>
    match createNameAt false (c :: cs) with
    | some (w, rest) => w :: findAllCreateNamesAux fuel rest
    | none => findAllCreateNamesAux fuel cs

/-- `re.match(r'CREATE\s+TABLE', stmt, re.IGNORECASE)` as a Boolean
(`create_tables`, line 35). -/
def reMatchCreateTable (stmt : List Char) : Bool :=
  (do
    let a ← matchLitCI (strL "CREATE") stmt
    let b ← ws1 a
    matchLitCI (strL "TABLE") b).isSome

/-- `re.search(r'^\s*,?\s*FOREIGN\s+KEY', line, re.IGNORECASE)` as a Boolean
(`create_tables`, line 56). -/
def isFKLine (line : List Char) : Bool :=
  let p1 := line.dropWhile isPyWs
  let p2 :=
    match p1 with
    | ',' :: t => t.dropWhile isPyWs
    | _ => p1
  (do
    let a ← matchLitCI (strL "FOREIGN") p2
    let b ← ws1 a
    matchLitCI (strL "KEY") b).isSome

/-- One unit of `(?:\s+ON\s+(?:DELETE|UPDATE)\s+(?:CASCADE|SET\s+NULL|NO\s+ACTION|RESTRICT))`. -/
def onActionUnit (cs : List Char) : Option (List Char) := do
  let a ← ws1 cs
  let b ← matchLitCI (strL "ON") a
  let c ← ws1 b
  let d ←
    match matchLitCI (strL "DELETE") c with
    | some r => some r
    | none => matchLitCI (strL "UPDATE") c
  let e ← ws1 d
  match matchLitCI (strL "CASCADE") e with
  | some r => some r
  | none =>
    match (do
        let f ← matchLitCI (strL "SET") e
        let g ← ws1 f
        matchLitCI (strL "NULL") g) with
    | some r => some r
    | none =>
      match (do
          let f ← matchLitCI (strL "NO") e
          let g ← ws1 f
          matchLitCI (strL "ACTION") g) with
      | some r => some r
      | none => matchLitCI (strL "RESTRICT") e

/-- The `*` loop over `onActionUnit`: consume as many complete units as
possible (fuel starts at the input length; each unit consumes ≥ 1 char). -/
def onActionsStarAux : Nat → List Char → List Char
  | 0, cs => cs
  | fuel + 1, cs =>
    match onActionUnit cs with
    | some r => onActionsStarAux fuel r
    | none => cs

/-- A match of the FK-clause pattern (line 45) anchored at the head of `cs`:
`FOREIGN\s+KEY\s*\(([^)]+)\)\s*REFERENCES\s+[""]?(\w+)[""]?\s*\(([^)]+)\)`
followed by any number of ON DELETE/UPDATE action units (captured groups:
owner columns, referenced table, referenced columns). -/
def fkClauseAt (cs : List Char) : Option ((List Char × List Char × List Char) × List Char) := do
  let a ← matchLitCI (strL "FOREIGN") cs
  let b ← ws1 a
  let c ← matchLitCI (strL "KEY") b
  let d := c.dropWhile isPyWs
  let e ← expectChar '(' d
  let (cap1, f) ← notParenPlus e
  let g ← expectChar ')' f
  let h := g.dropWhile isPyWs
  let i ← matchLitCI (strL "REFERENCES") h
  let j ← ws1 i
  let (cap2, k) ← wordPlus (quoteOpt j)
  let l := (quoteOpt k).dropWhile isPyWs
  let m ← expectChar '(' l
  let (cap3, n) ← notParenPlus m
  let o ← expectChar ')' n
  return ((cap1, cap2, cap3), onActionsStarAux o.length o)

/-- `re.findall` scan for the FK-clause pattern (fuel as in
`findAllCreateNamesAux`). -/
def fkFindAllAux : Nat → List Char → List (List Char × List Char × List Char)
  | 0, _ => []
  | _ + 1, [] => []
  | fuel + 1, c :: cs =>
    match fkClauseAt (c :: cs) with
    | some (caps, rest) => caps :: fkFindAllAux fuel rest
    | none => fkFindAllAux fuel cs

/-- All FK-clause matches of a statement, in source order. -/
def fkFindAll (s : List Char) : List (List Char × List Char × List Char) :=
  fkFindAllAux s.length s

/-- `re.sub(r'\.\d+$', '', s)`: strip one trailing `.<digits>` suffix
(the match must reach the end of the string, so at most one exists). -/
def stripNumSuffix (s : List Char) : List Char :=
  let r := s.reverse
  let ds := r.takeWhile Char.isDigit
  match ds, r.drop ds.length with
  | _ :: _, '.' :: t => t.reverse
  | _, _ => s

example : stripNumSuffix (strL "Code.2") = strL "Code" := by decide
example : stripNumSuffix (strL "Code.") = strL "Code." := by decide
example : stripNumSuffix (strL "a.12.34") = strL "a.12" := by decide
example : stripNumSuffix (strL "Code") = strL "Code" := by decide
example : isFKLine (strL "  , FOREIGN KEY (a) REFERENCES b(c)") = true := by decide
example : isFKLine (strL "  a INT,") = false := by decide
example : reMatchCreateTable (strL "create  table t (x int)") = true := by decide
example : reMatchCreateTable (strL " CREATE TABLE t") = false := by decide
example : searchCreateName (strL "CREATE TABLE \"users\" (id INT)") = some (strL "users") := by decide
example : searchCreateName (strL "CREATE TABLE IF NOT EXISTS orders (x)") = some (strL "orders") := by decide
example : findAllCreateNamesAux 40 (strL "CREATE TABLE \"users\" (id INT)") = [] := by decide
example : findAllCreateNamesAux 60 (strL "CREATE TABLE a (x INT); CREATE TABLE b (y INT)") = [strL "a", strL "b"] := by decide
example :
    fkFindAll (strL "FOREIGN KEY (a) REFERENCES u (b)") = [(strL "a", strL "u", strL "b")] := by
  decide
example :
    fkFindAll (strL "x, FOREIGN KEY (\"a\") REFERENCES \"u\"(b) ON DELETE CASCADE, FOREIGN KEY (c) REFERENCES v(d)") =
      [(strL "\"a\"", strL "u", strL "b"), (strL "c", strL "v", strL "d")] := by
  decide

/-! ### `re.sub(r',(\s*)\)', r'\1)', s)` (trailing-comma repair, line 63) -/

/-- Try to read `\s*` followed by `target`; returns the whitespace run and the
rest after `target`. -/
def takeWsThen (target : Char) : List Char → Option (List Char × List Char)
  | [] => none
  | c :: cs =>
    if c = target then some ([], cs)
    else if isPyWs c then (takeWsThen target cs).map (fun p => (c :: p.1, p.2))
    else none

theorem takeWsThen_length {t : Char} :
    ∀ {cs ws r : List Char}, takeWsThen t cs = some (ws, r) → r.length < cs.length := by
  intro cs
  induction cs with
  | nil => intro ws r h; simp [takeWsThen] at h
  | cons c cs ih =>
    intro ws r h
    by_cases hc : c = t
    · simp [takeWsThen, hc] at h
      simp [← h.2]
    · by_cases hw : isPyWs c
      · simp [takeWsThen, hc, hw] at h
        obtain ⟨a, hrec, _⟩ := h
        have := ih hrec
        simp
        omega
      · simp [takeWsThen, hc, hw] at h

/-- The scan of `re.sub(r',(\s*)\)', r'\1)', ·)`: at each position try the
pattern (it can only start at a comma); on a match emit the replacement
`\1)` = whitespace + `)` and continue after the match; otherwise emit the
character and advance one.  Fuel starts at the input length and each step
consumes at least one input character, so it never runs out early. -/
def commaSubAux : Nat → List Char → List Char
  | 0, _ => []
  | _ + 1, [] => []
  | fuel + 1, c :: cs =>
    if c = ',' then
      match takeWsThen ')' cs with
      | some (ws, r) => ws ++ ')' :: commaSubAux fuel r
      | none => c :: commaSubAux fuel cs
    else c :: commaSubAux fuel cs

/-- `re.sub(r',(\s*)\)', r'\1)', s)`. -/
def commaSub (s : List Char) : List Char := commaSubAux s.length s

example : commaSub (strL "a int,\n)") = strL "a int\n)" := by decide
example : commaSub (strL "a int,,)") = strL "a int,)" := by decide
example : commaSub (strL "f(a,b), , )") = strL "f(a,b),  )" := by decide

/-! ### `PostgresService` — pure parts of `create_tables` (postgres.py 21-70) -/

/-- A deferred foreign-key descriptor
`(ownerTable, ownerColumn, referencedTable, referencedColumn)`. -/
abbrev FKC := List Char × List Char × List Char × List Char

/-- `_extract_table_names` (lines 15-19): `re.findall` of
`CREATE\s+TABLE\s+(?:IF\s+NOT\s+EXISTS\s+)?(\w+)` over the whole DDL. -/
def extract_table_names (ddl : List Char) : List (List Char) :=
  findAllCreateNamesAux ddl.length ddl

/-- Line 28: `[s.strip() for s in ddl.split(';') if s.strip()]`. -/
def splitStatements (ddl : List Char) : List (List Char) :=
  ((pySplitChar ';' ddl).map pyStrip).filter (fun s => !s.isEmpty)

/-- Lines 34-42: the per-statement gate (`re.match`) and table-name search
(`re.search` of the quoted pattern); `none` models `continue`. -/
def stmtTableName (stmt : List Char) : Option (List Char) :=
  if reMatchCreateTable stmt then searchCreateName stmt else none

/-- Lines 44-49: one FK descriptor per regex match, owner column and
referenced column passed through `.strip().strip('"')`. -/
def fkAltersOf (tableName stmt : List Char) : List FKC :=
  (fkFindAll stmt).map (fun caps =>
    (tableName, pyStripQuote (pyStrip caps.1), caps.2.1, pyStripQuote (pyStrip caps.2.2)))

/-- Lines 51-68: drop the lines that start (up to whitespace and an optional
comma) with FOREIGN KEY, re-join, repair `,(\s*)\)`, strip, and ensure a
trailing `)`. -/
def stripFKStmt (stmt : List Char) : List Char :=
  let lines := pySplitChar '\n' stmt
  let clean := lines.filter (fun l => !isFKLine l)
  let s1 := pyJoinWith (strL "\n") clean
  let s2 := pyStrip (commaSub s1)
  if pyEndsWith s2 ')' then s2 else s2 ++ [')']

/-- The statement loop of `create_tables` (lines 31-70): collects the
FK-stripped CREATE statements (forward order) and all FK descriptors. -/
def collectCreates : List (List Char) → List (List Char) × List FKC
  | [] => ([], [])
  | stmt :: rest =>
    let (cs, fks) := collectCreates rest
    match stmtTableName stmt with
    | none => (cs, fks)
    | some tn => (stripFKStmt stmt :: cs, fkAltersOf tn stmt ++ fks)

/-- Line 77: `f'DROP TABLE IF EXISTS "{table}" CASCADE;'`. -/
def dropSQL (t : List Char) : List Char :=
  strL "DROP TABLE IF EXISTS \"" ++ t ++ strL "\" CASCADE;"

/-- Line 82: `' '.join(stmt.split())`. -/
def normalizeWs (s : List Char) : List Char :=
  pyJoinWith [' '] (pySplitWs s)

/-! ### Execution models

A connection buffers the statements it has executed; `commit` publishes the
buffer into the committed log `db`; closing without committing (the `finally`
path after an exception) discards the buffer.  Whether a given statement
raises is supplied by a `fails` oracle, which abstracts the external database
engine. -/

instance {ε : Type u} {α : Type v} [DecidableEq ε] [DecidableEq α] :
    DecidableEq (Except ε α) := fun x y =>
  match x, y with
  | .ok a, .ok b =>
    if h : a = b then .isTrue (by rw [h]) else .isFalse (by intro hh; cases hh; exact h rfl)
  | .error a, .error b =>
    if h : a = b then .isTrue (by rw [h]) else .isFalse (by intro hh; cases hh; exact h rfl)
  | .ok _, .error _ => .isFalse (by intro hh; cases hh)
  | .error _, .ok _ => .isFalse (by intro hh; cases hh)

instance : DecidableEq (List (List Char) × List FKC) := instDecidableEqProd

instance : DecidableEq (List Char × List (Option (List Char))) := instDecidableEqProd

/-- Execute statements in order, stopping at the first failure; returns the
outcome and the list of statements actually attempted. -/
def execAll (fails : List Char → Bool) : List (List Char) → Except (List Char) Unit × List (List Char)
  | [] => (.ok (), [])
  | s :: ss =>
    if fails s then (.error s, [s])
    else
      let (r, att) := execAll fails ss
      (r, s :: att)

/-- Outcome of one `create_tables` call. -/
structure CreateTablesOut where
  result : Except (List Char) (List (List Char) × List FKC)
  db : List (List Char)
  attempted : List (List Char)
  connClosed : Bool
  deriving DecidableEq

/-- `create_tables` (lines 21-94): compute the pure data, then drop the
extracted tables in reverse order and execute the whitespace-normalized
FK-stripped CREATE statements in forward order, all on one connection;
commit only if every statement succeeded; the `finally` always closes the
connection, which discards the uncommitted buffer on the error path. -/
def create_tables (ddl : List Char) (fails : List Char → Bool) (db : List (List Char)) :
    CreateTablesOut :=
  let tables := extract_table_names ddl
  let cf := collectCreates (splitStatements ddl)
  let script := tables.reverse.map dropSQL ++ cf.1.map (fun s => normalizeWs s ++ strL ";")
  let ex := execAll fails script
  match ex.1 with
  | .ok _ => ⟨.ok (tables, cf.2), db ++ script, ex.2, true⟩
  | .error e => ⟨.error e, db, ex.2, true⟩

/-- Line 104: the ALTER TABLE statement text. -/
def fkAlterSQL (f : FKC) : List Char :=
  strL "ALTER TABLE \"" ++ f.1 ++ strL "\" ADD FOREIGN KEY (\"" ++ f.2.1 ++
    strL "\") REFERENCES \"" ++ f.2.2.1 ++ strL "\" (\"" ++ f.2.2.2 ++ strL "\");"

/-- Line 106: the human-readable descriptor appended to `added`. -/
def fkDescr (f : FKC) : List Char :=
  f.1 ++ strL "." ++ f.2.1 ++ strL " -> " ++ f.2.2.1 ++ strL "." ++ f.2.2.2

/-- The loop of `add_foreign_keys` (lines 102-108).  Once one statement has
failed the transaction is aborted, so every later execute on the same
connection also raises (and is caught and merely printed, like the first):
`aborted` carries that state.  Returns (added, buffered, aborted). -/
def addFKLoop (fails : List Char → Bool) :
    List FKC → Bool → List (List Char) × List (List Char) × Bool
  | [], ab => ([], [], ab)
  | f :: fs, ab =>
    let sql := fkAlterSQL f
    if ab || fails sql then
      let (ad, pend, ab') := addFKLoop fails fs true
      (ad, pend, ab')
    else
      let (ad, pend, ab') := addFKLoop fails fs false
      (fkDescr f :: ad, sql :: pend, ab')

/-- Outcome of one `add_foreign_keys` call.  The source returns only the
`added` list: failures are printed, never returned. -/
structure AddFKOut where
  added : List (List Char)
  db : List (List Char)
  connClosed : Bool
  deriving DecidableEq

/-- `add_foreign_keys` (lines 96-112): attempt every constraint even after
failures (each failure is caught inside the loop), then commit; committing an
aborted transaction rolls it back, so the buffer is published only when no
statement failed. -/
def add_foreign_keys (fks : List FKC) (fails : List Char → Bool) (db : List (List Char)) :
    AddFKOut :=
  let r := addFKLoop fails fks false
  ⟨r.1, if r.2.2 then db else db ++ r.2.1, true⟩

/-! ### `insert_csv_data` (postgres.py 114-165)

The pandas CSV parse and the `information_schema` column query are external
collaborators: the model takes the parsed header list, the parsed data rows
and the destination column list as inputs. -/

/-- A parsed CSV cell: either a missing-value marker (`pd.isna`) or a value. -/
inductive PyCell
  | na
  | val (v : List Char)
  deriving DecidableEq

/-- Line 159: `None if pd.isna(v) else v`. -/
def coerceCell : PyCell → Option (List Char)
  | .na => none
  | .val v => some v

/-- Line 143: `re.sub(r'\.\d+$', '', csv_col).lower().strip()`. -/
def cleanCsv (c : List Char) : List Char :=
  pyStrip (pyLower (stripNumSuffix c))

/-- The inner loop of lines 144-150: the first destination column not yet
consumed whose lower-casing equals the cleaned header or the lower-cased
header. -/
def findMatch (csvCol : List Char) (used : List (List Char)) :
    List (List Char) → Option (List Char)
  | [] => none
  | db :: rest =>
    if used.contains db then findMatch csvCol used rest
    else if pyLower db = cleanCsv csvCol || pyLower db = pyLower csvCol then some db
    else findMatch csvCol used rest

/-- Python `dict` lookup. -/
def pyDictGet (m : List (List Char × List Char)) (k : List Char) : Option (List Char) :=
  (m.find? (fun e => e.1 = k)).map (·.2)

/-- Python `dict` assignment: update in place if the key exists, else append. -/
def pyDictInsert (m : List (List Char × List Char)) (k v : List Char) :
    List (List Char × List Char) :=
  if (m.find? (fun e => e.1 = k)).isSome then
    m.map (fun e => if e.1 = k then (k, v) else e)
  else m ++ [(k, v)]

/-- The outer loop of lines 140-150, threading `column_mapping` and
`used_db_cols`. -/
def buildMapping (dbCols : List (List Char)) :
    List (List Char) → List (List Char × List Char) → List (List Char) →
      List (List Char × List Char) × List (List Char)
  | [], m, used => (m, used)
  | c :: cs, m, used =>
    match findMatch c used dbCols with
    | some db => buildMapping dbCols cs (pyDictInsert m c db) (used ++ [db])
    | none => buildMapping dbCols cs m used

/-- Lines 135-151: the Column Reconciler.  Equal counts map positionally;
otherwise name-based matching with fall-back `c.lower()`. -/
def insertMappedCols (csvCols dbCols : List (List Char)) : List (List Char) :=
  if csvCols.length = dbCols.length then dbCols
  else
    let (m, _) := buildMapping dbCols csvCols [] []
    csvCols.map (fun c => (pyDictGet m c).getD (pyLower c))

/-- Lines 153-156: the parameterized INSERT statement text. -/
def insertSQL (tableName : List Char) (cols : List (List Char)) : List Char :=
  let placeholders := pyJoinWith (strL ", ") (cols.map (fun _ => strL "%s"))
  let colNames := pyJoinWith (strL ", ") (cols.map (fun c => strL "\"" ++ c ++ strL "\""))
  strL "INSERT INTO \"" ++ tableName ++ strL "\" (" ++ colNames ++
    strL ") VALUES (" ++ placeholders ++ strL ")"

/-- The row loop of lines 158-160: there is no per-row handler, so the first
failing row aborts the whole call; `failsAt i` says whether inserting row `i`
raises.  On success returns the buffered parameterized inserts. -/
def insertRows (sql : List Char) (failsAt : Nat → Bool) :
    List (List PyCell) → Nat → Except Nat (List (List Char × List (Option (List Char))))
  | [], _ => .ok []
  | row :: rest, i =>
    if failsAt i then .error i
    else
      match insertRows sql failsAt rest (i + 1) with
      | .ok l => .ok ((sql, row.map coerceCell) :: l)
      | .error j => .error j

/-- Outcome of one `insert_csv_data` call. -/
structure InsertOut where
  result : Except Nat Nat
  db : List (List Char × List (Option (List Char)))
  connClosed : Bool
  deriving DecidableEq

/-- `insert_csv_data` (lines 114-165): an empty dataframe returns 0 before a
connection is opened; otherwise all rows are inserted on one connection and
committed only after every row succeeded; a row failure propagates, the
`finally` closes the connection and the uncommitted buffer is discarded. -/
def insert_csv_data (tableName : List Char) (csvCols : List (List Char))
    (rows : List (List PyCell)) (dbCols : List (List Char)) (failsAt : Nat → Bool)
    (db : List (List Char × List (Option (List Char)))) : InsertOut :=
  if rows.isEmpty then ⟨.ok 0, db, true⟩
  else
    let sql := insertSQL tableName (insertMappedCols csvCols dbCols)
    match insertRows sql failsAt rows 0 with
    | .ok pend => ⟨.ok rows.length, db ++ pend, true⟩
    | .error i => ⟨.error i, db, true⟩

example : insertMappedCols [strL "A", strL "B"] [strL "x", strL "y"] = [strL "x", strL "y"] := by
  decide
example :
    insertMappedCols [strL "Code", strL "Code.2"] [strL "code", strL "code_2", strL "zz"] =
      [strL "code", strL "code.2"] := by
  decide
example : insertMappedCols [strL "Code.2"] [strL "x", strL "y"] = [strL "code.2"] := by decide

example : insertMappedCols [strL "A", strL "A"] [strL "a", strL "A", strL "x"] =
    [strL "A", strL "A"] := by decide
example : insertMappedCols [strL " A "] [strL "a", strL "x"] = [strL "a"] := by decide
example : insertMappedCols [strL "B", strL "b.1"] [strL "b", strL "x", strL "y"] =
    [strL "b", strL "b.1"] := by decide

/-! ### `main.py`: the `/api/migrate` handler, steps 3-4 (lines 553-587),
and the `/api/query` handler (lines 606-635) -/

/-- A Python runtime value as far as the handler's f-string needs: a string
or a list.  `create_tables` returns a pair, which the handler binds unsplit
to the variable `tables`; iterating that pair for `', '.join(tables)` yields
its two list components. -/
inductive PyV
  | s (v : List Char)
  | lst (xs : List PyV)

/-- `', '.join(xs)` elementwise: Python raises `TypeError: sequence item i:
expected str instance, list found` at the first non-str element. -/
def pyStrJoinVAux : List PyV → Nat → Except (List Char) (List (List Char))
  | [], _ => .ok []
  | .s v :: rest, i =>
    match pyStrJoinVAux rest (i + 1) with
    | .ok l => .ok (v :: l)
    | .error e => .error e
  | .lst _ :: _, i =>
    .error (strL "sequence item " ++ (toString i).data ++
      strL ": expected str instance, list found")

/-- Python `sep.join(xs)` over arbitrary values. -/
def pyStrJoinV (sep : List Char) (xs : List PyV) : Except (List Char) (List Char) :=
  match pyStrJoinVAux xs 0 with
  | .ok l => .ok (pyJoinWith sep l)
  | .error e => .error e

/-- The response model returned by a completed migration (lines 580-587). -/
structure MigrateResponse where
  success : Bool
  tablesCreated : List PyV
  rowsInserted : List (List Char × Nat)
  errors : List (List Char)

/-- Either an `HTTPException(code, detail)` or a `MigrateResponse`. -/
inductive MigrateOutcome
  | httpError (code : Nat) (detail : List Char)
  | response (r : MigrateResponse)

/-- Step 4 (lines 564-572): one `insert_csv_data` attempt per file; a failure
appends a per-file message to `errors` and the loop continues; a success
records the file's row count. -/
def insertLoop (outcome : List Char → Except (List Char) Nat) :
    List (List Char) → List (List Char × Nat) × List (List Char)
  | [] => ([], [])
  | f :: fs =>
    match outcome f with
    | .ok n =>
      let (ri, es) := insertLoop outcome fs
      ((f, n) :: ri, es)
    | .error e =>
      let (ri, es) := insertLoop outcome fs
      (ri, (strL "Failed to insert data for " ++ f ++ strL ": " ++ e) :: es)

/-- Steps 3-4 of `migrate_files` (lines 553-587).  `ctRes` is the outcome of
`postgres.create_tables(ddl)`; `files` the downloaded file names;
`insertOutcome` abstracts `postgres.insert_csv_data`.  Besides the HTTP
outcome the model returns the files whose insertion was actually attempted
and the foreign-key constraints the handler applied (the handler contains no
`add_foreign_keys` call, so that trace is built nowhere). -/
def migrate_files (ctRes : Except (List Char) (List (List Char) × List FKC))
    (files : List (List Char))
    (insertOutcome : List Char → Except (List Char) Nat) :
    MigrateOutcome × List (List Char) × List FKC :=
  match ctRes with
  | .error e => (.httpError 500 (strL "Table creation failed: " ++ e), [], [])
  | .ok (names, fks) =>
    let tablesVar : List PyV := [.lst (names.map .s), .lst (fks.map (fun _ => .lst []))]
    match pyStrJoinV (strL ", ") tablesVar with
    | .error te => (.httpError 500 (strL "Table creation failed: " ++ te), [], [])
    | .ok _ =>
      let r := insertLoop insertOutcome files
      (.response ⟨r.2.isEmpty, tablesVar, r.1, r.2⟩, files, [])

/-- The response model of `/api/query` (lines 598-603). -/
structure QueryResponse where
  success : Bool
  columns : List (List Char)
  rows : List (List (List Char))
  row_count : Nat
  error : List Char
  deriving DecidableEq

/-- `execute_query` (lines 606-635): strip the request, reject unless its
upper-casing starts with SELECT, otherwise run it; the Boolean reports
whether the database was touched at all. -/
def execute_query (sqlReq : List Char)
    (dbExec : List Char → Except (List Char) (List (List Char) × List (List (List Char)))) :
    QueryResponse × Bool :=
  let sql := pyStrip sqlReq
  if !(pyStartsWith (pyUpper sql) (strL "SELECT")) then
    (⟨false, [], [], 0, strL "Only SELECT queries are allowed"⟩, false)
  else
    match dbExec sql with
    | .ok (cols, rows) => (⟨true, cols, rows, rows.length, []⟩, true)
    | .error e => (⟨false, [], [], 0, e⟩, true)

/-! ### Helper lemmas -/

theorem execAll_noFail (xs : List (List Char)) :
    execAll (fun _ => false) xs = (.ok (), xs) := by
  induction xs with
  | nil => rfl
  | cons s ss ih => simp [execAll, ih]

/-! ### C1 — the `/api/migrate` handler's join of the `create_tables` pair -/

/-- C1: whenever `postgres.create_tables(ddl)` returns normally (a pair of a
table-name list and an FK list), the handler's `', '.join(tables)` raises a
TypeError that the surrounding `except` turns into the fatal HTTP 500
`Table creation failed` error; consequently the data-insertion step is never
reached and no response (in particular none with `success = true`) is ever
returned by this endpoint, whatever the `create_tables` outcome. -/
theorem migrate_files_join_typeerror (names : List (List Char)) (fks : List FKC)
    (files : List (List Char)) (io : List Char → Except (List Char) Nat)
    (ctRes : Except (List Char) (List (List Char) × List FKC)) (r : MigrateResponse) :
    migrate_files (.ok (names, fks)) files io =
      (.httpError 500
        (strL "Table creation failed: sequence item 0: expected str instance, list found"),
       [], []) ∧
    (migrate_files ctRes files io).1 ≠ .response r := by
  constructor
  · simp [migrate_files, pyStrJoinV, pyStrJoinVAux]
    rfl
  · cases ctRes with
    | error e => simp [migrate_files]
    | ok p =>
      obtain ⟨ns, fs⟩ := p
      simp [migrate_files, pyStrJoinV, pyStrJoinVAux]

/-! ### C5 — positional column mapping when the counts agree -/

/-- C5: when the CSV header count equals the destination column count the
Column Reconciler maps purely positionally: position `i` of the header list
is sent to position `i` of the destination list, the header text being
ignored entirely. -/
theorem insertMappedCols_positional (headers dbCols : List (List Char))
    (h : headers.length = dbCols.length) :
    insertMappedCols headers dbCols = dbCols ∧
    ∀ i, (insertMappedCols headers dbCols).get? i = dbCols.get? i := by
  refine ⟨by simp [insertMappedCols, h], fun i => by simp [insertMappedCols, h]⟩

/-- Witness for C5 at the spec's own example: header `["A","B"]` against
destination `["x","y"]` maps `A` to `x` and `B` to `y`. -/
theorem insertMappedCols_positional_witness :
    insertMappedCols [strL "A", strL "B"] [strL "x", strL "y"] = [strL "x", strL "y"] :=
  (insertMappedCols_positional [strL "A", strL "B"] [strL "x", strL "y"] (by decide)).1

/-! ### C9 — the SELECT-only gate of `/api/query` -/

/-- C9: the query endpoint touches the database exactly when the stripped,
upper-cased request starts with SELECT; every rejected request yields the
policy-error response with no database access; lower- and mixed-case
`select` variants pass the gate and `DROP TABLE customers` does not. -/
theorem execute_query_select_gate (s : List Char)
    (dbExec : List Char → Except (List Char) (List (List Char) × List (List (List Char)))) :
    ((execute_query s dbExec).2 = true ↔
      pyStartsWith (pyUpper (pyStrip s)) (strL "SELECT") = true) ∧
    (pyStartsWith (pyUpper (pyStrip s)) (strL "SELECT") = false →
      execute_query s dbExec =
        (⟨false, [], [], 0, strL "Only SELECT queries are allowed"⟩, false)) ∧
    pyStartsWith (pyUpper (pyStrip (strL "select * from customers"))) (strL "SELECT") = true ∧
    pyStartsWith (pyUpper (pyStrip (strL "Select * FROM customers"))) (strL "SELECT") = true ∧
    pyStartsWith (pyUpper (pyStrip (strL "DROP TABLE customers"))) (strL "SELECT") = false := by
  refine ⟨?_, ?_, by decide, by decide, by decide⟩
  · by_cases hg : pyStartsWith (pyUpper (pyStrip s)) (strL "SELECT") = true
    · simp only [execute_query, hg]
      cases dbExec (pyStrip s) with
      | ok p => simp
      | error e => simp
    · simp only [Bool.not_eq_true] at hg
      simp [execute_query, hg]
  · intro hg
    simp [execute_query, hg]

/-- Witness for C9: `DROP TABLE customers` is rejected with the policy error
and the database is never touched. -/
theorem execute_query_select_gate_witness :
    execute_query (strL "DROP TABLE customers") (fun _ => .ok ([], [])) =
      (⟨false, [], [], 0, strL "Only SELECT queries are allowed"⟩, false) :=
  (execute_query_select_gate (strL "DROP TABLE customers") (fun _ => .ok ([], []))).2.1
    (by decide)

/-! ### C8 — drop in reverse declaration order, create in forward order -/

/-- C8: in a run whose statements all succeed, `create_tables` attempts, in
order, one `DROP TABLE IF EXISTS … CASCADE` per extracted table name in
reverse declaration order, followed by the whitespace-normalized FK-stripped
CREATE statements in forward declaration order. -/
theorem create_tables_drop_reverse_create_forward (ddl : List Char) (db : List (List Char)) :
    (create_tables ddl (fun _ => false) db).attempted =
      (extract_table_names ddl).reverse.map dropSQL ++
        (collectCreates (splitStatements ddl)).1.map (fun s => normalizeWs s ++ strL ";") ∧
    (create_tables ddl (fun _ => false) db).result =
      .ok (extract_table_names ddl, (collectCreates (splitStatements ddl)).2) := by
  simp [create_tables, execAll_noFail]

/-! ### C3 — a row-insertion failure aborts the whole file -/

theorem insertRows_error_of_fail (sql : List Char) (failsAt : Nat → Bool) :
    ∀ (rows : List (List PyCell)) (start : Nat),
      (∃ i, i < rows.length ∧ failsAt (start + i) = true) →
      ∃ j, insertRows sql failsAt rows start = .error j := by
  intro rows
  induction rows with
  | nil => intro start h; obtain ⟨i, hi, _⟩ := h; simp at hi
  | cons row rest ih =>
    intro start h
    obtain ⟨i, hi, hf⟩ := h
    by_cases h0 : failsAt start = true
    · exact ⟨start, by simp [insertRows, h0]⟩
    · have hi0 : i ≠ 0 := by
        rintro rfl
        simp at hf
        exact h0 hf
      obtain ⟨i', rfl⟩ : ∃ i', i = i' + 1 := ⟨i - 1, by omega⟩
      obtain ⟨j, hj⟩ := ih (start + 1) ⟨i', by simpa using hi, by
        have : start + 1 + i' = start + (i' + 1) := by omega
        rw [this]; exact hf⟩
      refine ⟨j, ?_⟩
      simp [insertRows, h0, hj]

/-- C3 (counterexample to the claim as stated): with two rows of which the
second fails, `insert_csv_data` does not continue past the failure and does
not report one succeeded row — the exception propagates, nothing is
committed, and in particular the result is not `ok 1`. -/
theorem insert_csv_row_failure_cex :
    insert_csv_data (strL "t") [strL "a"] [[PyCell.val (strL "1")], [PyCell.val (strL "2")]]
        [strL "a"] (fun i => i == 1) [] = ⟨.error 1, [], true⟩ ∧
    (insert_csv_data (strL "t") [strL "a"] [[PyCell.val (strL "1")], [PyCell.val (strL "2")]]
        [strL "a"] (fun i => i == 1) []).result ≠ .ok 1 := by
  decide

/-- C3 (amended): a failure inserting one row of a `DatasetFile` aborts that
file's load — the error propagates out of `insert_csv_data`, no row of the
file is committed, and the connection is closed — while the caller's step-4
loop records one per-file error message for the failed file, reports no row
count for it, and continues with the remaining files (successful files keep
their counts). -/
theorem insert_csv_row_failure_aborts (t : List Char) (cols : List (List Char))
    (rows : List (List PyCell)) (dbCols : List (List Char)) (failsAt : Nat → Bool)
    (db : List (List Char × List (Option (List Char))))
    (files : List (List Char)) (outcome : List Char → Except (List Char) Nat) :
    ((∃ i, i < rows.length ∧ failsAt i = true) →
      ∃ j, insert_csv_data t cols rows dbCols failsAt db = ⟨.error j, db, true⟩) ∧
    (insertLoop outcome files).1 =
      files.filterMap (fun f =>
        match outcome f with
        | .ok n => some (f, n)
        | .error _ => none) ∧
    (insertLoop outcome files).2 =
      files.filterMap (fun f =>
        match outcome f with
        | .ok _ => none
        | .error e => some (strL "Failed to insert data for " ++ f ++ strL ": " ++ e)) := by
  refine ⟨?_, ?_, ?_⟩
  · intro h
    have hne : rows.isEmpty = false := by
      obtain ⟨i, hi, _⟩ := h
      cases rows with
      | nil => simp at hi
      | cons a b => simp
    obtain ⟨j, hj⟩ := insertRows_error_of_fail
      (insertSQL t (insertMappedCols cols dbCols)) failsAt rows 0 (by simpa using h)
    exact ⟨j, by simp [insert_csv_data, hne, hj]⟩
  · induction files with
    | nil => rfl
    | cons f fs ih =>
      cases ho : outcome f with
      | ok n => simp [insertLoop, ho, ih]
      | error e => simp [insertLoop, ho, ih]
  · induction files with
    | nil => rfl
    | cons f fs ih =>
      cases ho : outcome f with
      | ok n => simp [insertLoop, ho, ih]
      | error e => simp [insertLoop, ho, ih]

/-! ### C6 — name-based column matching when the counts differ -/

/-- The name-matching pass as the code actually behaves (the amended C6):
headers processed in order, each matched to the first unconsumed destination
column whose lower-casing equals the cleaned header (suffix-stripped,
lower-cased, whitespace-trimmed) or the plainly lower-cased header; an
unmatched header falls back to its own lower-casing, with the numeric
disambiguation suffix left in place. -/
def nameMatchModel (dbCols : List (List Char)) :
    List (List Char) → List (List Char) → List (List Char)
  | [], _ => []
  | h :: hs, used =>
    match findMatch h used dbCols with
    | some d => d :: nameMatchModel dbCols hs (used ++ [d])
    | none => pyLower h :: nameMatchModel dbCols hs used

/-- The matching inner loop exactly as claim C6 words it: the normalized
header is only its suffix-stripped lower-casing, and matching compares the
destination's lower-casing with that normalization alone. -/
def claimFindMatch (norm : List Char) (used : List (List Char)) :
    List (List Char) → Option (List Char)
  | [] => none
  | db :: rest =>
    if used.contains db then claimFindMatch norm used rest
    else if pyLower db = norm then some db
    else claimFindMatch norm used rest

/-- The mapping exactly as claim C6 words it: first-match-wins in header
order, and every unmatched header falls back to its lower-cased,
disambiguation-stripped text. -/
def claimNameMatch (dbCols : List (List Char)) :
    List (List Char) → List (List Char) → List (List Char)
  | [], _ => []
  | h :: hs, used =>
    let norm := pyLower (stripNumSuffix h)
    match claimFindMatch norm used dbCols with
    | some d => d :: claimNameMatch dbCols hs (used ++ [d])
    | none => norm :: claimNameMatch dbCols hs used

/-- C6 (counterexample): for header `Code.2` against destinations `x, y`
(counts 1 ≠ 2, no name matches), the code maps the header to `code.2` —
lower-cased but with the `.2` suffix kept — while the claim's fallback
prescribes the suffix-stripped `code`. -/
theorem insertMappedCols_fallback_cex :
    insertMappedCols [strL "Code.2"] [strL "x", strL "y"] = [strL "code.2"] ∧
    claimNameMatch [strL "x", strL "y"] [strL "Code.2"] [] = [strL "code"] ∧
    insertMappedCols [strL "Code.2"] [strL "x", strL "y"] ≠
      claimNameMatch [strL "x", strL "y"] [strL "Code.2"] [] := by
  decide

theorem pyDictInsert_cons_ne (e : List Char × List Char) (es : List (List Char × List Char))
    (k v : List Char) (he : ¬ e.1 = k) :
    pyDictInsert (e :: es) k v = e :: pyDictInsert es k v := by
  have hf : (e :: es).find? (fun x => x.1 = k) = es.find? (fun x => x.1 = k) :=
    List.find?_cons_of_neg _ (by simp [he])
  by_cases h : (es.find? (fun x => x.1 = k)).isSome
  · simp [pyDictInsert, hf, h, he]
  · simp [pyDictInsert, hf, h]

theorem pyDictGet_cons_ne (e : List Char × List Char) (es : List (List Char × List Char))
    (k : List Char) (he : ¬ e.1 = k) :
    pyDictGet (e :: es) k = pyDictGet es k := by
  have hf : (e :: es).find? (fun x => x.1 = k) = es.find? (fun x => x.1 = k) :=
    List.find?_cons_of_neg es (by simp [he])
  simp [pyDictGet, hf]

theorem pyDictGet_cons_eq (e : List Char × List Char) (es : List (List Char × List Char))
    (k : List Char) (he : e.1 = k) :
    pyDictGet (e :: es) k = some e.2 := by
  have hf : (e :: es).find? (fun x => x.1 = k) = some e :=
    List.find?_cons_of_pos es (by simp [he])
  simp [pyDictGet, hf]

theorem pyDictGet_insert_self (m : List (List Char × List Char)) (k v : List Char) :
    pyDictGet (pyDictInsert m k v) k = some v := by
  induction m with
  | nil => simp [pyDictInsert, pyDictGet, List.find?]
  | cons e es ih =>
    by_cases he : e.1 = k
    · have h1 : ((e :: es).find? (fun x => x.1 = k)).isSome := by
        rw [List.find?_cons_of_pos _ (by simp [he])]
        rfl
      simp only [pyDictInsert, h1, if_pos, List.map_cons, if_pos he]
      exact pyDictGet_cons_eq (k, v) _ k rfl
    · rw [pyDictInsert_cons_ne e es k v he, pyDictGet_cons_ne e _ k he]
      exact ih

theorem pyDictGet_map_update_ne (es : List (List Char × List Char)) (k v k' : List Char)
    (hne : ¬ k' = k) :
    pyDictGet (es.map (fun e => if e.1 = k then (k, v) else e)) k' = pyDictGet es k' := by
  induction es with
  | nil => rfl
  | cons f fs ihf =>
    by_cases hf : f.1 = k
    · rw [List.map_cons, if_pos hf]
      rw [pyDictGet_cons_ne (k, v) _ k' (by simpa using fun h : k = k' => hne h.symm)]
      rw [pyDictGet_cons_ne f _ k' (by rw [hf]; exact fun h => hne h.symm)]
      exact ihf
    · rw [List.map_cons, if_neg hf]
      by_cases hfk' : f.1 = k'
      · rw [pyDictGet_cons_eq f _ k' hfk', pyDictGet_cons_eq f _ k' hfk']
      · rw [pyDictGet_cons_ne f _ k' hfk', pyDictGet_cons_ne f _ k' hfk']
        exact ihf

theorem pyDictGet_insert_other (m : List (List Char × List Char)) (k v k' : List Char)
    (hne : ¬ k' = k) : pyDictGet (pyDictInsert m k v) k' = pyDictGet m k' := by
  by_cases h : (m.find? (fun e => e.1 = k)).isSome
  · simp only [pyDictInsert, h, if_pos]
    exact pyDictGet_map_update_ne m k v k' hne
  · simp only [pyDictInsert, h, if_neg, Bool.false_eq_true, not_false_eq_true]
    induction m with
    | nil =>
      rw [List.nil_append]
      rw [pyDictGet_cons_ne (k, v) [] k' (fun hh => hne hh.symm)]
    | cons e es ih =>
      by_cases he' : e.1 = k'
      · rw [List.cons_append, pyDictGet_cons_eq e _ k' he', pyDictGet_cons_eq e _ k' he']
      · rw [List.cons_append, pyDictGet_cons_ne e _ k' he', pyDictGet_cons_ne e _ k' he']
        apply ih
        intro hs
        apply h
        rw [List.find?_cons]
        cases hd : decide (e.1 = k) with
        | true => rfl
        | false => exact hs

theorem buildMapping_get_not_mem (dbCols : List (List Char)) :
    ∀ (hs : List (List Char)) (m : List (List Char × List Char)) (used : List (List Char))
      (k : List Char), k ∉ hs →
      pyDictGet (buildMapping dbCols hs m used).1 k = pyDictGet m k := by
  intro hs
  induction hs with
  | nil => intro m used k _; rfl
  | cons h hs ih =>
    intro m used k hk
    have hkh : ¬ k = h := fun hh => hk (hh ▸ List.mem_cons_self h hs)
    have hkhs : k ∉ hs := fun hh => hk (List.mem_cons_of_mem h hh)
    cases hm : findMatch h used dbCols with
    | none => simp only [buildMapping, hm]; exact ih m used k hkhs
    | some d =>
      simp only [buildMapping, hm]
      rw [ih _ _ k hkhs]
      exact pyDictGet_insert_other m h d k hkh

theorem buildMapping_map_eq_model (dbCols : List (List Char)) :
    ∀ (hs : List (List Char)) (m : List (List Char × List Char)) (used : List (List Char)),
      hs.Nodup → (∀ h ∈ hs, pyDictGet m h = none) →
      hs.map (fun c => (pyDictGet (buildMapping dbCols hs m used).1 c).getD (pyLower c)) =
        nameMatchModel dbCols hs used := by
  intro hs
  induction hs with
  | nil => intro m used _ _; rfl
  | cons h hs ih =>
    intro m used hnd hfresh
    have hnotmem : h ∉ hs := (List.nodup_cons.mp hnd).1
    have hndtl : hs.Nodup := (List.nodup_cons.mp hnd).2
    cases hm : findMatch h used dbCols with
    | none =>
      simp only [buildMapping, hm, nameMatchModel, List.map_cons]
      rw [List.cons.injEq]
      refine ⟨?_, ?_⟩
      · rw [buildMapping_get_not_mem dbCols hs m used h hnotmem]
        rw [hfresh h (List.mem_cons_self h hs)]
        rfl
      · exact ih m used hndtl (fun x hx => hfresh x (List.mem_cons_of_mem h hx))
    | some d =>
      simp only [buildMapping, hm, nameMatchModel, List.map_cons]
      rw [List.cons.injEq]
      refine ⟨?_, ?_⟩
      · rw [buildMapping_get_not_mem dbCols hs _ _ h hnotmem]
        rw [pyDictGet_insert_self m h d]
        rfl
      · refine ih _ _ hndtl (fun x hx => ?_)
        rw [pyDictGet_insert_other m h d x
          (fun hh => hnotmem (hh ▸ hx))]
        exact hfresh x (List.mem_cons_of_mem h hx)

/-- C6 (amended): when the header count differs from the destination column
count and the header texts are pairwise distinct, the computed mapping is
exactly the first-match-wins pass `nameMatchModel`: each header in order is
matched to the first unconsumed destination column whose lower-casing equals
either the cleaned header (suffix-stripped, lower-cased, whitespace-trimmed)
or the plainly lower-cased header, each destination column is consumed at
most once, and an unmatched header falls back to its own lower-cased text
with the `.<digits>` suffix kept.  (With duplicated header texts all
occurrences share one `column_mapping` entry, the last match winning, which
is why distinctness is assumed.) -/
theorem insertMappedCols_name_matching (headers dbCols : List (List Char))
    (hlen : headers.length ≠ dbCols.length) (hnd : headers.Nodup) :
    insertMappedCols headers dbCols = nameMatchModel dbCols headers [] := by
  simp only [insertMappedCols, if_neg hlen]
  exact buildMapping_map_eq_model dbCols headers [] [] hnd (fun _ _ => rfl)

/-- Witness for C6 (amended): headers `Code, Code.2` against destinations
`code, code_2, zz` (2 ≠ 3): `Code` matches `code`, then `Code.2` cleans to
`code` whose only candidate is consumed and falls back to `code.2`. -/
theorem insertMappedCols_name_matching_witness :
    insertMappedCols [strL "Code", strL "Code.2"] [strL "code", strL "code_2", strL "zz"] =
      nameMatchModel [strL "code", strL "code_2", strL "zz"] [strL "Code", strL "Code.2"] [] ∧
    nameMatchModel [strL "code", strL "code_2", strL "zz"] [strL "Code", strL "Code.2"] [] =
      [strL "code", strL "code.2"] :=
  ⟨insertMappedCols_name_matching [strL "Code", strL "Code.2"]
      [strL "code", strL "code_2", strL "zz"] (by decide) (by decide),
   by decide⟩

/-! ### C10 — commit only on success, connection released on every path -/

theorem insertRows_ok_of_noFail (sql : List Char) (failsAt : Nat → Bool) :
    ∀ (rows : List (List PyCell)) (start : Nat),
      (∀ i, i < rows.length → failsAt (start + i) = false) →
      insertRows sql failsAt rows start =
        .ok (rows.map (fun row => (sql, row.map coerceCell))) := by
  intro rows
  induction rows with
  | nil => intro start _; rfl
  | cons row rest ih =>
    intro start h
    have h0 : failsAt start = false := by simpa using h 0 (by simp)
    have hrec := ih (start + 1) (fun i hi => by
      have : start + 1 + i = start + (i + 1) := by omega
      rw [this]
      exact h (i + 1) (by simpa using hi))
    simp [insertRows, h0, hrec]

/-- C10: each logical database unit commits only on success and closes its
connection on every exit path: `create_tables` and `insert_csv_data` always
report the connection closed; if any statement of `create_tables` fails,
neither the drops nor the creates are committed (the committed state is
unchanged); if inserting any row fails, zero rows of that file are committed;
and when every row succeeds the whole file is committed and the row count
returned. -/
theorem db_units_commit_only_on_success
    (ddl : List Char) (fails : List Char → Bool) (db : List (List Char))
    (t : List Char) (cols dbCols : List (List Char)) (rows : List (List PyCell))
    (failsAt : Nat → Bool) (idb : List (List Char × List (Option (List Char)))) :
    (create_tables ddl fails db).connClosed = true ∧
    (insert_csv_data t cols rows dbCols failsAt idb).connClosed = true ∧
    (∀ e, (create_tables ddl fails db).result = .error e → (create_tables ddl fails db).db = db) ∧
    ((∃ i, i < rows.length ∧ failsAt i = true) →
      (insert_csv_data t cols rows dbCols failsAt idb).db = idb ∧
      ∃ j, (insert_csv_data t cols rows dbCols failsAt idb).result = .error j) ∧
    ((∀ i, i < rows.length → failsAt i = false) →
      insert_csv_data t cols rows dbCols failsAt idb =
        ⟨.ok rows.length,
         idb ++ rows.map (fun row => (insertSQL t (insertMappedCols cols dbCols), row.map coerceCell)),
         true⟩) := by
  refine ⟨?_, ?_, ?_, ?_, ?_⟩
  · simp only [create_tables]
    cases hx : (execAll fails ((extract_table_names ddl).reverse.map dropSQL ++
        (collectCreates (splitStatements ddl)).1.map (fun s => normalizeWs s ++ strL ";"))).1 with
    | ok u => rfl
    | error e => rfl
  · by_cases hne : rows.isEmpty
    · simp [insert_csv_data, hne]
    · simp only [Bool.not_eq_true] at hne
      cases hx : insertRows (insertSQL t (insertMappedCols cols dbCols)) failsAt rows 0 with
      | ok pend => simp [insert_csv_data, hne, hx]
      | error j => simp [insert_csv_data, hne, hx]
  · intro e he
    simp only [create_tables] at he ⊢
    cases hx : (execAll fails ((extract_table_names ddl).reverse.map dropSQL ++
        (collectCreates (splitStatements ddl)).1.map (fun s => normalizeWs s ++ strL ";"))).1 with
    | ok u => rw [hx] at he; simp at he
    | error e' => rfl
  · intro h
    have hne : rows.isEmpty = false := by
      obtain ⟨i, hi, _⟩ := h
      cases rows with
      | nil => simp at hi
      | cons a b => simp
    obtain ⟨j, hj⟩ := insertRows_error_of_fail
      (insertSQL t (insertMappedCols cols dbCols)) failsAt rows 0 (by simpa using h)
    constructor
    · simp [insert_csv_data, hne, hj]
    · exact ⟨j, by simp [insert_csv_data, hne, hj]⟩
  · intro h
    by_cases hne : rows.isEmpty
    · cases rows with
      | nil => simp [insert_csv_data]
      | cons a b => simp at hne
    · simp only [Bool.not_eq_true] at hne
      have hok := insertRows_ok_of_noFail (insertSQL t (insertMappedCols cols dbCols)) failsAt
        rows 0 (fun i hi => by simpa using h i hi)
      simp [insert_csv_data, hne, hok]

/-- Witness for C10: a two-row file whose second row fails commits nothing,
and a one-row file with no failure commits exactly its row and reports
count 1. -/
theorem db_units_commit_only_on_success_witness :
    (insert_csv_data (strL "t") [strL "a"] [[PyCell.val (strL "1")], [PyCell.val (strL "2")]]
        [strL "a"] (fun i => i == 1) []).db = [] ∧
    insert_csv_data (strL "t") [strL "a"] [[PyCell.val (strL "7")]] [strL "a"]
        (fun _ => false) [] =
      ⟨.ok ([[PyCell.val (strL "7")]] : List (List PyCell)).length,
       [] ++ [[PyCell.val (strL "7")]].map
         (fun row => (insertSQL (strL "t") (insertMappedCols [strL "a"] [strL "a"]),
           row.map coerceCell)),
       true⟩ :=
  ⟨((db_units_commit_only_on_success (strL "") (fun _ => false) [] (strL "t") [strL "a"]
      [strL "a"] [[PyCell.val (strL "1")], [PyCell.val (strL "2")]] (fun i => i == 1)
      []).2.2.2.1 ⟨1, by decide, by decide⟩).1,
   (db_units_commit_only_on_success (strL "") (fun _ => false) [] (strL "t") [strL "a"]
      [strL "a"] [[PyCell.val (strL "7")]] (fun _ => false) []).2.2.2.2
      (fun i _ => rfl)⟩

/-! ### C2 — the deferred-FK pass -/

theorem addFKLoop_aborted (fails : List Char → Bool) :
    ∀ fks : List FKC, addFKLoop fails fks true = ([], [], true) := by
  intro fks
  induction fks with
  | nil => rfl
  | cons f fs ih => simp [addFKLoop, ih]

theorem addFKLoop_char (fails : List Char → Bool) :
    ∀ fks : List FKC,
      addFKLoop fails fks false =
        ((fks.takeWhile (fun f => !fails (fkAlterSQL f))).map fkDescr,
         (fks.takeWhile (fun f => !fails (fkAlterSQL f))).map fkAlterSQL,
         fks.any (fun f => fails (fkAlterSQL f))) := by
  intro fks
  induction fks with
  | nil => rfl
  | cons f fs ih =>
    by_cases hf : fails (fkAlterSQL f) = true
    · simp [addFKLoop, hf, addFKLoop_aborted, List.takeWhile_cons, List.any_cons]
    · simp only [Bool.not_eq_true] at hf
      simp [addFKLoop, hf, ih, List.takeWhile_cons, List.any_cons]

/-- C2: in the code as written no migration run ever attempts a deferred
foreign-key constraint: the `/api/migrate` handler contains no
`add_foreign_keys` call (its FK-application trace is empty on every path),
even though `create_tables` hands it the extracted constraints for exactly
that purpose.  The unused service method itself would attempt the
constraints in order, catching each failure inside the loop (so attempts
continue), but it records failures nowhere: it returns only the `added`
descriptions, and after a failure the aborted transaction makes every later
attempt fail too and commit publishes nothing. -/
theorem migrate_never_applies_deferred_fks
    (ctRes : Except (List Char) (List (List Char) × List FKC))
    (files : List (List Char)) (io : List Char → Except (List Char) Nat)
    (fks : List FKC) (fails : List Char → Bool) (db : List (List Char)) :
    (migrate_files ctRes files io).2.2 = [] ∧
    add_foreign_keys fks fails db =
      ⟨(fks.takeWhile (fun f => !fails (fkAlterSQL f))).map fkDescr,
       if fks.any (fun f => fails (fkAlterSQL f)) then db
       else db ++ (fks.takeWhile (fun f => !fails (fkAlterSQL f))).map fkAlterSQL,
       true⟩ := by
  constructor
  · cases ctRes with
    | error e => rfl
    | ok p =>
      obtain ⟨ns, fs⟩ := p
      simp [migrate_files, pyStrJoinV, pyStrJoinVAux]
  · simp [add_foreign_keys, addFKLoop_char]
    rw [addFKLoop_char]

/-! ### C7 — the Table Identifier Extractor -/

theorem not_ws_of_word (c : Char) (h : isWordChar c = true) : isPyWs c = false := by
  by_contra hc
  simp only [Bool.not_eq_false] at hc
  simp only [isPyWs, Bool.or_eq_true, decide_eq_true_eq] at hc
  rcases hc with ((((h1 | h2) | h3) | h4) | h5) | h6 <;> subst_vars <;>
    exact absurd h (by decide)

theorem dropWhile_word_head (name rest : List Char) (hn : name ≠ [])
    (hw : ∀ c ∈ name, isWordChar c = true) :
    (name ++ rest).dropWhile isPyWs = name ++ rest := by
  cases name with
  | nil => exact absurd rfl hn
  | cons h t =>
    simp [List.dropWhile_cons, not_ws_of_word h (hw h (by simp))]

theorem word_split (name rest : List Char)
    (hw : ∀ c ∈ name, isWordChar c = true)
    (hr : rest.head?.all (fun c => !isWordChar c) = true) :
    (name ++ rest).takeWhile isWordChar = name ∧
    (name ++ rest).dropWhile isWordChar = rest := by
  induction name with
  | nil =>
    simp only [List.nil_append]
    cases rest with
    | nil => exact ⟨rfl, rfl⟩
    | cons c cs =>
      simp only [List.head?_cons, Option.all_some] at hr
      simp only [Bool.not_eq_true'] at hr
      simp [List.takeWhile_cons, List.dropWhile_cons, hr]
  | cons h t ih =>
    have hh := hw h (by simp)
    have ht : ∀ c ∈ t, isWordChar c = true := fun c hc => hw c (by simp [hc])
    obtain ⟨h1, h2⟩ := ih ht
    simp [List.takeWhile_cons, List.dropWhile_cons, hh, h1, h2]

theorem quoteOpt_ne (h : Char) (l : List Char) (hh : ¬ h = '"') :
    quoteOpt (h :: l) = h :: l := by
  unfold quoteOpt
  split
  · rename_i heq
    rw [List.cons.injEq] at heq
    exact absurd heq.1 hh
  · rfl

theorem word_not_quote (c : Char) (h : isWordChar c = true) : ¬ c = '"' := by
  intro hc
  subst hc
  exact absurd h (by decide)

theorem nameAt_word (q : Bool) (name rest : List Char) (hn : name ≠ [])
    (hw : ∀ c ∈ name, isWordChar c = true)
    (hr : rest.head?.all (fun c => !isWordChar c) = true) :
    ∃ r, nameAt q (name ++ rest) = some (name, r) := by
  obtain ⟨h1, h2⟩ := word_split name rest hw hr
  cases name with
  | nil => exact absurd rfl hn
  | cons h t =>
    have hq : quoteOpt ((h :: t) ++ rest) = (h :: t) ++ rest := by
      rw [List.cons_append]
      exact quoteOpt_ne h _ (word_not_quote h (hw h (by simp)))
    cases q with
    | false =>
      refine ⟨rest, ?_⟩
      simp only [nameAt, if_neg, Bool.false_eq_true, not_false_eq_true]
      simp only [wordPlus, h1, h2]
    | true =>
      refine ⟨quoteOpt rest, ?_⟩
      simp only [nameAt, if_pos, hq]
      simp only [wordPlus, h1, h2]

theorem createNameAt_header (q : Bool) (X : List Char) (hX : X.dropWhile isPyWs = X) :
    createNameAt q (strL "CREATE TABLE " ++ X) =
      match ineAt X with
      | some p2 =>
        match nameAt q p2 with
        | some res => some res
        | none => nameAt q X
      | none => nameAt q X := by
  show (match ineAt (X.dropWhile isPyWs) with
      | some p2 =>
        match nameAt q p2 with
        | some res => some res
        | none => nameAt q (X.dropWhile isPyWs)
      | none => nameAt q (X.dropWhile isPyWs)) = _
  rw [hX]

theorem reMatch_header (X : List Char) :
    reMatchCreateTable (strL "CREATE TABLE " ++ X) = true := rfl

theorem searchCreateName_head (c : Char) (cs : List Char) (w rest : List Char)
    (h : createNameAt true (c :: cs) = some (w, rest)) :
    searchCreateName (c :: cs) = some w := by
  simp [searchCreateName, h]

theorem stmtTableName_unquoted (name rest : List Char) (hn : name ≠ [])
    (hw : ∀ c ∈ name, isWordChar c = true)
    (hr : rest.head?.all (fun c => !isWordChar c) = true)
    (hIne : ineAt (name ++ rest) = none) :
    stmtTableName (strL "CREATE TABLE " ++ (name ++ rest)) = some name := by
  have hX : (name ++ rest).dropWhile isPyWs = name ++ rest :=
    dropWhile_word_head name rest hn hw
  obtain ⟨r, hna⟩ := nameAt_word true name rest hn hw hr
  have hcn : createNameAt true (strL "CREATE TABLE " ++ (name ++ rest)) = some (name, r) := by
    rw [createNameAt_header true (name ++ rest) hX, hIne, hna]
  have hsearch : searchCreateName (strL "CREATE TABLE " ++ (name ++ rest)) = some name := by
    rw [show strL "CREATE TABLE " ++ (name ++ rest) =
      'C' :: (strL "REATE TABLE " ++ (name ++ rest)) from rfl]
    exact searchCreateName_head 'C' _ name r hcn
  show (if reMatchCreateTable (strL "CREATE TABLE " ++ (name ++ rest)) then
      searchCreateName (strL "CREATE TABLE " ++ (name ++ rest)) else none) = some name
  rw [reMatch_header, if_pos rfl]
  exact hsearch

theorem nameAt_quoted_ident (name rest : List Char) (hn : name ≠ [])
    (hw : ∀ c ∈ name, isWordChar c = true) :
    nameAt true ('"' :: (name ++ '"' :: rest)) = some (name, rest) := by
  obtain ⟨h1, h2⟩ := word_split name ('"' :: rest) hw (by simp; decide)
  show (match wordPlus (name ++ '"' :: rest) with
    | some (w, r) => some (w, quoteOpt r)
    | none => none) = some (name, rest)
  cases name with
  | nil => exact absurd rfl hn
  | cons h t =>
    simp only [wordPlus, h1, h2]
    rfl

theorem stmtTableName_quoted (name rest : List Char) (hn : name ≠ [])
    (hw : ∀ c ∈ name, isWordChar c = true) :
    stmtTableName (strL "CREATE TABLE " ++ ('"' :: (name ++ '"' :: rest))) = some name := by
  have hna := nameAt_quoted_ident name rest hn hw
  have hcn : createNameAt true (strL "CREATE TABLE " ++ ('"' :: (name ++ '"' :: rest))) =
      some (name, rest) := by
    rw [createNameAt_header true _ rfl]
    rw [show ineAt ('"' :: (name ++ '"' :: rest)) = none from rfl, hna]
  have hsearch : searchCreateName (strL "CREATE TABLE " ++ ('"' :: (name ++ '"' :: rest))) =
      some name := by
    rw [show strL "CREATE TABLE " ++ ('"' :: (name ++ '"' :: rest)) =
      'C' :: (strL "REATE TABLE " ++ ('"' :: (name ++ '"' :: rest))) from rfl]
    exact searchCreateName_head 'C' _ name rest hcn
  show (if reMatchCreateTable (strL "CREATE TABLE " ++ ('"' :: (name ++ '"' :: rest))) then
      searchCreateName (strL "CREATE TABLE " ++ ('"' :: (name ++ '"' :: rest))) else none) =
      some name
  rw [reMatch_header, if_pos rfl]
  exact hsearch

theorem stmtTableName_ine (name rest : List Char) (hn : name ≠ [])
    (hw : ∀ c ∈ name, isWordChar c = true)
    (hr : rest.head?.all (fun c => !isWordChar c) = true) :
    stmtTableName (strL "CREATE TABLE " ++ (strL "IF NOT EXISTS " ++ (name ++ rest))) =
      some name := by
  obtain ⟨r, hna⟩ := nameAt_word true name rest hn hw hr
  have hine : ineAt (strL "IF NOT EXISTS " ++ (name ++ rest)) =
      some ((name ++ rest).dropWhile isPyWs) := rfl
  have hcn : createNameAt true (strL "CREATE TABLE " ++ (strL "IF NOT EXISTS " ++ (name ++ rest))) =
      some (name, r) := by
    rw [createNameAt_header true _ rfl, hine, dropWhile_word_head name rest hn hw]
    show (match nameAt true (name ++ rest) with
      | some res => some res
      | none => nameAt true (strL "IF NOT EXISTS " ++ (name ++ rest))) = some (name, r)
    rw [hna]
  have hsearch : searchCreateName
      (strL "CREATE TABLE " ++ (strL "IF NOT EXISTS " ++ (name ++ rest))) = some name := by
    rw [show strL "CREATE TABLE " ++ (strL "IF NOT EXISTS " ++ (name ++ rest)) =
      'C' :: (strL "REATE TABLE " ++ (strL "IF NOT EXISTS " ++ (name ++ rest))) from rfl]
    exact searchCreateName_head 'C' _ name r hcn
  show (if reMatchCreateTable (strL "CREATE TABLE " ++ (strL "IF NOT EXISTS " ++ (name ++ rest)))
      then searchCreateName (strL "CREATE TABLE " ++ (strL "IF NOT EXISTS " ++ (name ++ rest)))
      else none) = some name
  rw [reMatch_header, if_pos rfl]
  exact hsearch

/-- C7 (counterexample): `CREATE TABLE "users" (id INT)` is a CREATE TABLE
statement with a double-quoted identifier — the per-statement search in
`create_tables` recognizes it and strips the quotes — yet
`_extract_table_names`, which produces the declared-table-name list, has no
quote handling in its pattern and returns no name at all for it, not the
claimed `users`. -/
theorem extract_table_names_quoted_cex :
    stmtTableName (strL "CREATE TABLE \"users\" (id INT)") = some (strL "users") ∧
    extract_table_names (strL "CREATE TABLE \"users\" (id INT)") = [] ∧
    extract_table_names (strL "CREATE TABLE \"users\" (id INT)") ≠ [strL "users"] := by
  decide

/-- C7 (amended): a statement that does not begin with a CREATE TABLE header
yields no identifier; the per-statement extractor used inside
`create_tables` returns the identifier with case preserved for a plain
identifier, for a double-quoted identifier (quotes stripped), and with an
`IF NOT EXISTS` prefix; the whole-DDL declared-name extractor
`_extract_table_names` preserves case and handles `IF NOT EXISTS`, but its
pattern has no quote handling, so a CREATE TABLE with a double-quoted
identifier contributes no name to the declared-name (drop) list. -/
theorem stmtTableName_contract (stmt name rest : List Char) (hn : name ≠ [])
    (hw : ∀ c ∈ name, isWordChar c = true)
    (hr : rest.head?.all (fun c => !isWordChar c) = true)
    (hIne : ineAt (name ++ rest) = none)
    (hgate : reMatchCreateTable stmt = false) :
    stmtTableName stmt = none ∧
    stmtTableName (strL "CREATE TABLE " ++ (name ++ rest)) = some name ∧
    stmtTableName (strL "CREATE TABLE " ++ ('"' :: (name ++ '"' :: rest))) = some name ∧
    stmtTableName (strL "CREATE TABLE " ++ (strL "IF NOT EXISTS " ++ (name ++ rest))) =
      some name ∧
    extract_table_names
      (strL "CREATE TABLE Users (id INT); CREATE TABLE IF NOT EXISTS orders (x INT)") =
      [strL "Users", strL "orders"] ∧
    extract_table_names (strL "CREATE TABLE \"Users\" (id INT)") = [] :=
  ⟨by simp [stmtTableName, hgate],
   stmtTableName_unquoted name rest hn hw hr hIne,
   stmtTableName_quoted name rest hn hw,
   stmtTableName_ine name rest hn hw hr,
   by decide, by decide⟩

/-- Witness for C7 (amended) at the identifier `users` followed by a column
list. -/
theorem stmtTableName_contract_witness :
    stmtTableName (strL "SELECT 1") = none ∧
    stmtTableName (strL "CREATE TABLE " ++ (strL "users" ++ strL " (id INT)")) =
      some (strL "users") :=
  ⟨(stmtTableName_contract (strL "SELECT 1") (strL "users") (strL " (id INT)")
      (by decide) (by decide) (by decide) (by decide) (by decide)).1,
   (stmtTableName_contract (strL "SELECT 1") (strL "users") (strL " (id INT)")
      (by decide) (by decide) (by decide) (by decide) (by decide)).2.1⟩

/-- Witness for C3 (amended): the two-row file whose second row fails ends in
an error with nothing committed. -/
theorem insert_csv_row_failure_aborts_witness :
    ∃ j, insert_csv_data (strL "t") [strL "a"]
        [[PyCell.val (strL "1")], [PyCell.val (strL "2")]] [strL "a"]
        (fun i => i == 1) [] = ⟨.error j, [], true⟩ :=
  (insert_csv_row_failure_aborts (strL "t") [strL "a"]
      [[PyCell.val (strL "1")], [PyCell.val (strL "2")]] [strL "a"] (fun i => i == 1) []
      [] (fun _ => .ok 0)).1 ⟨1, by decide, by decide⟩

/-! ### C4 — FK extraction count and syntactic validity of the rewrite -/

/-- A scan for an occurrence of `,` `\s*` `)` — the claim's criterion for a
column-definition list left syntactically invalid by the rewrite. -/
def hasCommaWsParen : List Char → Bool
  | [] => false
  | c :: cs => (c = ',' && (takeWsThen ')' cs).isSome) || hasCommaWsParen cs

/-- A scan for an occurrence of `,` `\s*` `,` (two commas separated only by
whitespace). -/
def hasCommaWsComma : List Char → Bool
  | [] => false
  | c :: cs => (c = ',' && (takeWsThen ',' cs).isSome) || hasCommaWsComma cs

/-- C4 (counterexample): a CREATE TABLE statement whose single FOREIGN KEY
clause shares its line with the closing parenthesis of the column list.  The
extractor produces exactly one descriptor (K = 1), but removing the FK line
also removes the `)`; the comma repair then finds nothing, and the appended
`)` lands directly after the dangling comma: the rewritten statement is
`CREATE TABLE t (\na INT,)`, whose column list ends with a comma before the
closing parenthesis. -/
theorem stripFKStmt_dangling_comma_cex :
    (fkAltersOf (strL "t") (strL "CREATE TABLE t (\na INT,\nFOREIGN KEY (a) REFERENCES u (b))")).length = 1 ∧
    stripFKStmt (strL "CREATE TABLE t (\na INT,\nFOREIGN KEY (a) REFERENCES u (b))") =
      strL "CREATE TABLE t (\na INT,)" ∧
    hasCommaWsParen
      (stripFKStmt (strL "CREATE TABLE t (\na INT,\nFOREIGN KEY (a) REFERENCES u (b))")) =
      true := by
  decide

theorem ws_ne_comma (c : Char) (h : isPyWs c = true) : ¬ c = ',' := by
  simp only [isPyWs, Bool.or_eq_true, decide_eq_true_eq] at h
  rcases h with ((((h | h) | h) | h) | h) | h <;> subst h <;> decide

theorem ws_ne_paren (c : Char) (h : isPyWs c = true) : ¬ c = ')' := by
  simp only [isPyWs, Bool.or_eq_true, decide_eq_true_eq] at h
  rcases h with ((((h | h) | h) | h) | h) | h <;> subst h <;> decide

theorem takeWsThen_decomp {t : Char} :
    ∀ {cs ws r : List Char}, takeWsThen t cs = some (ws, r) →
      cs = ws ++ t :: r ∧ ∀ c ∈ ws, isPyWs c = true := by
  intro cs
  induction cs with
  | nil => intro ws r h; simp [takeWsThen] at h
  | cons c cs ih =>
    intro ws r h
    by_cases hc : c = t
    · simp [takeWsThen, hc] at h
      obtain ⟨h1, h2⟩ := h
      subst h1 h2
      simp [hc]
    · by_cases hw : isPyWs c
      · simp [takeWsThen, hc, hw] at h
        obtain ⟨a, hrec, hws⟩ := h
        obtain ⟨hd, hall⟩ := ih hrec
        constructor
        · rw [← hws, List.cons_append, ← hd]
        · intro x hx
          rw [← hws] at hx
          rcases List.mem_cons.mp hx with h | h
          · subst h; exact hw
          · exact hall x h
      · simp [takeWsThen, hc, hw] at h

theorem takeWsThen_all_ws {t : Char} (ht : isPyWs t = false) :
    ∀ cs : List Char, (∀ c ∈ cs, isPyWs c = true) → takeWsThen t cs = none := by
  intro cs
  induction cs with
  | nil => intro _; rfl
  | cons c cs ih =>
    intro h
    have hc : isPyWs c = true := h c (by simp)
    have hct : ¬ c = t := by
      intro hh
      subst hh
      rw [hc] at ht
      cases ht
    simp [takeWsThen, hct, hc, ih (fun x hx => h x (by simp [hx]))]

theorem takeWsThen_ws_prepend_none {t : Char} (ht : isPyWs t = false) :
    ∀ (ws l : List Char), (∀ c ∈ ws, isPyWs c = true) → takeWsThen t l = none →
      takeWsThen t (ws ++ l) = none := by
  intro ws
  induction ws with
  | nil => intro l _ h; simpa using h
  | cons c cs ih =>
    intro l hws hl
    have hc : isPyWs c = true := hws c (by simp)
    have hct : ¬ c = t := by
      intro hh; subst hh; rw [hc] at ht; cases ht
    simp [takeWsThen, hct, hc, ih l (fun x hx => hws x (by simp [hx])) hl]

theorem hasCWP_prepend_noComma :
    ∀ (xs t : List Char), (∀ c ∈ xs, ¬ c = ',') →
      hasCommaWsParen (xs ++ t) = hasCommaWsParen t := by
  intro xs
  induction xs with
  | nil => intro t _; rfl
  | cons c cs ih =>
    intro t h
    have hc : ¬ c = ',' := h c (by simp)
    simp [hasCommaWsParen, hc, ih t (fun x hx => h x (by simp [hx]))]

theorem hasCWC_prepend_noComma :
    ∀ (xs t : List Char), (∀ c ∈ xs, ¬ c = ',') →
      hasCommaWsComma (xs ++ t) = hasCommaWsComma t := by
  intro xs
  induction xs with
  | nil => intro t _; rfl
  | cons c cs ih =>
    intro t h
    have hc : ¬ c = ',' := h c (by simp)
    simp [hasCommaWsComma, hc, ih t (fun x hx => h x (by simp [hx]))]

theorem commaSubAux_noComma :
    ∀ (fuel : Nat) (xs l : List Char), xs.length + l.length ≤ fuel →
      (∀ c ∈ xs, ¬ c = ',') →
      commaSubAux fuel (xs ++ l) = xs ++ commaSubAux (fuel - xs.length) l := by
  intro fuel
  induction fuel with
  | zero =>
    intro xs l hlen _
    have : xs = [] ∧ l = [] := by
      constructor <;> (cases xs <;> cases l <;> simp_all)
    obtain ⟨h1, h2⟩ := this
    subst h1 h2
    rfl
  | succ n ih =>
    intro xs l hlen hx
    cases xs with
    | nil => simp
    | cons c cs =>
      have hc : ¬ c = ',' := hx c (by simp)
      simp only [List.cons_append, commaSubAux, if_neg hc]
      rw [show cs.append l = cs ++ l from rfl]
      rw [ih cs l (by simp at hlen ⊢; omega) (fun x hxx => hx x (by simp [hxx]))]
      have : n + 1 - (c :: cs).length = n - cs.length := by simp only [List.length_cons]; omega
      rw [this]

theorem takeWsThen_build {t : Char} (ht : isPyWs t = false) :
    ∀ (ws r : List Char), (∀ c ∈ ws, isPyWs c = true) →
      takeWsThen t (ws ++ t :: r) = some (ws, r) := by
  intro ws
  induction ws with
  | nil => intro r _; simp [takeWsThen]
  | cons c cs ih =>
    intro r h
    have hc : isPyWs c = true := h c (by simp)
    have hct : ¬ c = t := by
      intro hh; subst hh; rw [hc] at ht; cases ht
    simp [takeWsThen, hct, hc, ih r (fun x hx => h x (by simp [hx]))]

theorem mem_takeWhile_ws {l : List Char} {x : Char} (h : x ∈ l.takeWhile isPyWs) :
    isPyWs x = true := List.mem_takeWhile_imp h

theorem dropWhile_head_not_ws :
    ∀ (l : List Char) (d : Char) (r : List Char),
      l.dropWhile isPyWs = d :: r → isPyWs d = false := by
  intro l
  induction l with
  | nil => intro d r h; simp at h
  | cons c cs ih =>
    intro d r h
    by_cases hc : isPyWs c
    · rw [List.dropWhile_cons_of_pos hc] at h
      exact ih d r h
    · rw [List.dropWhile_cons_of_neg hc] at h
      cases h
      simpa using hc


theorem commaSubAux_nil (fuel : Nat) : commaSubAux fuel [] = [] := by
  cases fuel <;> rfl


theorem hasCWP_of_noComma :
    ∀ cs : List Char, (∀ x ∈ cs, ¬ x = ',') → hasCommaWsParen cs = false := by
  intro cs
  induction cs with
  | nil => intro _; rfl
  | cons c cs ih =>
    intro h
    simp [hasCommaWsParen, h c (by simp), ih (fun x hx => h x (by simp [hx]))]

theorem commaSub_no_cwp :
    ∀ (fuel : Nat) (cs : List Char), cs.length ≤ fuel →
      hasCommaWsComma cs = false → hasCommaWsParen (commaSubAux fuel cs) = false := by
  intro fuel
  induction fuel using Nat.strong_induction_on with
  | _ fuel ih =>
  intro cs hlen hcwc
  cases fuel with
  | zero =>
    cases cs <;> rfl
  | succ n =>
    cases cs with
    | nil => rfl
    | cons c cs' =>
      by_cases hc : c = ','
      · subst hc
        have hcwc2 : ((takeWsThen ',' cs').isSome || hasCommaWsComma cs') = false := hcwc
        rw [Bool.or_eq_false_iff] at hcwc2
        obtain ⟨hcm, hcwc'⟩ := hcwc2
        have hcm' : takeWsThen ',' cs' = none := by
          cases hq : takeWsThen ',' cs' with
          | none => rfl
          | some p => rw [hq] at hcm; simp at hcm
        have hlen' : cs'.length ≤ n := by simp at hlen; omega
        cases hp : takeWsThen ')' cs' with
        | some p =>
          obtain ⟨ws, r⟩ := p
          simp only [commaSubAux, if_pos, hp]
          obtain ⟨hdec, hwsall⟩ := takeWsThen_decomp hp
          rw [hasCWP_prepend_noComma ws _ (fun x hx => ws_ne_comma x (hwsall x hx))]
          show hasCommaWsParen (commaSubAux n r) = false
          have hrlen : r.length ≤ n := by
            have := takeWsThen_length hp
            omega
          have hcwcr : hasCommaWsComma r = false := by
            rw [hdec] at hcwc'
            rw [hasCWC_prepend_noComma ws _ (fun x hx => ws_ne_comma x (hwsall x hx))] at hcwc'
            exact hcwc'
          exact ih n (by omega) r hrlen hcwcr
        | none =>
          simp only [commaSubAux, if_pos, hp]
          show ((takeWsThen ')' (commaSubAux n cs')).isSome ||
            hasCommaWsParen (commaSubAux n cs')) = false
          rw [Bool.or_eq_false_iff]
          have hsplit := List.takeWhile_append_dropWhile (p := isPyWs) (l := cs')
          cases hres : cs'.dropWhile isPyWs with
          | nil =>
            have hall : ∀ x ∈ cs', isPyWs x = true := by
              intro x hx
              rw [← hsplit, hres, List.append_nil] at hx
              exact mem_takeWhile_ws hx
            have hnc : ∀ x ∈ cs', ¬ x = ',' := fun x hx => ws_ne_comma x (hall x hx)
            have hid : commaSubAux n cs' = cs' := by
              have := commaSubAux_noComma n cs' [] (by simpa using hlen') hnc
              simpa [commaSubAux_nil] using this
            rw [hid]
            exact ⟨by simp [hp], hasCWP_of_noComma cs' hnc⟩
          | cons d r' =>
            have hdws : isPyWs d = false := dropWhile_head_not_ws cs' d r' hres
            have hwsall : ∀ x ∈ cs'.takeWhile isPyWs, isPyWs x = true :=
              fun x hx => mem_takeWhile_ws hx
            have hcs' : cs' = cs'.takeWhile isPyWs ++ d :: r' := by
              conv_lhs => rw [← hsplit, hres]
            have hdp : ¬ d = ')' := by
              intro hh
              subst hh
              rw [hcs', takeWsThen_build (by decide) _ r' hwsall] at hp
              cases hp
            have hdc : ¬ d = ',' := by
              intro hh
              subst hh
              rw [hcs', takeWsThen_build (by decide) _ r' hwsall] at hcm'
              cases hcm'
            have hlen2 : (cs'.takeWhile isPyWs).length + (d :: r').length ≤ n := by
              rw [hcs'] at hlen'
              simpa using hlen'
            rw [hcs', commaSubAux_noComma n _ (d :: r') hlen2
              (fun x hx => ws_ne_comma x (hwsall x hx))]
            obtain ⟨m, hm⟩ : ∃ m, n - (cs'.takeWhile isPyWs).length = m + 1 :=
              ⟨n - (cs'.takeWhile isPyWs).length - 1, by simp at hlen2; omega⟩
            rw [hm]
            simp only [commaSubAux, if_neg hdc]
            constructor
            · rw [takeWsThen_ws_prepend_none (by decide) _ _ hwsall
                (by simp [takeWsThen, hdp, hdws])]
              simp
            · rw [hasCWP_prepend_noComma _ _ (fun x hx => ws_ne_comma x (hwsall x hx))]
              have hcwcr : hasCommaWsComma r' = false := by
                rw [hcs'] at hcwc'
                rw [hasCWC_prepend_noComma _ _
                  (fun x hx => ws_ne_comma x (hwsall x hx))] at hcwc'
                have hcwc3 : ((d = ',' : Bool) && (takeWsThen ',' r').isSome ||
                  hasCommaWsComma r') = false := hcwc'
                rw [Bool.or_eq_false_iff] at hcwc3
                exact hcwc3.2
              have : hasCommaWsParen (d :: commaSubAux m r') =
                  ((d = ',' : Bool) && (takeWsThen ')' (commaSubAux m r')).isSome ||
                    hasCommaWsParen (commaSubAux m r')) := rfl
              rw [this, Bool.or_eq_false_iff]
              refine ⟨by simp [hdc], ?_⟩
              have hr'len : r'.length ≤ m := by
                simp only [List.length_cons] at hlen2
                omega
              exact ih m (by omega) r' hr'len hcwcr
      · simp only [commaSubAux, if_neg hc]
        have hcwc2 : ((c = ',' : Bool) && (takeWsThen ',' cs').isSome ||
          hasCommaWsComma cs') = false := hcwc
        rw [Bool.or_eq_false_iff] at hcwc2
        have : hasCommaWsParen (c :: commaSubAux n cs') =
            ((c = ',' : Bool) && (takeWsThen ')' (commaSubAux n cs')).isSome ||
              hasCommaWsParen (commaSubAux n cs')) := rfl
        rw [this, Bool.or_eq_false_iff]
        refine ⟨by simp [hc], ?_⟩
        exact ih n (by omega) cs' (by simp at hlen; omega) hcwc2.2

theorem hasCWP_suffix_false :
    ∀ (x y : List Char), hasCommaWsParen (x ++ y) = false → hasCommaWsParen y = false := by
  intro x
  induction x with
  | nil => intro y h; exact h
  | cons c cs ih =>
    intro y h
    have h2 : (((c = ',' : Bool) && (takeWsThen ')' (cs ++ y)).isSome) ||
      hasCommaWsParen (cs ++ y)) = false := h
    rw [Bool.or_eq_false_iff] at h2
    exact ih y h2.2

theorem takeWsThen_mono {t : Char} :
    ∀ {cs ws r : List Char} (y : List Char), takeWsThen t cs = some (ws, r) →
      takeWsThen t (cs ++ y) = some (ws, r ++ y) := by
  intro cs
  induction cs with
  | nil => intro ws r y h; simp [takeWsThen] at h
  | cons c cs ih =>
    intro ws r y h
    by_cases hc : c = t
    · simp [takeWsThen, hc] at h ⊢
      exact ⟨h.1, by rw [h.2]⟩
    · by_cases hw : isPyWs c
      · simp only [takeWsThen, if_neg hc, if_pos hw, Option.map_eq_some'] at h
        obtain ⟨⟨ws', r'⟩, hrec, heq⟩ := h
        obtain ⟨h1, h2⟩ := Prod.mk.injEq .. ▸ heq
        have step : takeWsThen t ((c :: cs) ++ y) =
            (takeWsThen t (cs ++ y)).map (fun p => (c :: p.1, p.2)) := by
          simp [takeWsThen, hc, hw]
        rw [step, ih y hrec]
        simp only [Option.map_some']
        rw [← h1, ← h2]
      · simp [takeWsThen, hc, hw] at h

theorem hasCWP_prefix_false :
    ∀ (x y : List Char), hasCommaWsParen (x ++ y) = false → hasCommaWsParen x = false := by
  intro x
  induction x with
  | nil => intro y _; rfl
  | cons c cs ih =>
    intro y h
    have h2 : (((c = ',' : Bool) && (takeWsThen ')' (cs ++ y)).isSome) ||
      hasCommaWsParen (cs ++ y)) = false := h
    rw [Bool.or_eq_false_iff] at h2
    have h3 : ((c = ',' : Bool) && (takeWsThen ')' cs).isSome) = false := by
      rcases Bool.and_eq_false_iff.mp h2.1 with hcc | hts
      · simp [Bool.and_eq_false_iff, hcc]
      · rw [Bool.and_eq_false_iff]
        right
        cases hq : takeWsThen ')' cs with
        | none => rfl
        | some p =>
          obtain ⟨ws, r⟩ := p
          rw [takeWsThen_mono y hq] at hts
          simp at hts
    have : hasCommaWsParen (c :: cs) =
        (((c = ',' : Bool) && (takeWsThen ')' cs).isSome) || hasCommaWsParen cs) := rfl
    rw [this, Bool.or_eq_false_iff]
    exact ⟨h3, ih y h2.2⟩

theorem dropEndWhile_decomp (p : Char → Bool) :
    ∀ s : List Char, ∃ w, s = dropEndWhile p s ++ w := by
  intro s
  induction s with
  | nil => exact ⟨[], rfl⟩
  | cons c cs ih =>
    obtain ⟨w, hw⟩ := ih
    cases hr : dropEndWhile p cs with
    | nil =>
      by_cases hp : p c
      · exact ⟨c :: cs, by simp [dropEndWhile, hr, hp]⟩
      · refine ⟨w, ?_⟩
        simp only [dropEndWhile, hr, if_neg hp]
        rw [hr] at hw
        simpa using hw
    | cons a l =>
      refine ⟨w, ?_⟩
      simp only [dropEndWhile, hr]
      rw [hr] at hw
      rw [List.cons_append, ← hw]

theorem pyStrip_no_cwp (s : List Char) (h : hasCommaWsParen s = false) :
    hasCommaWsParen (pyStrip s) = false := by
  have h1 : hasCommaWsParen (s.dropWhile isPyWs) = false := by
    have := List.takeWhile_append_dropWhile (p := isPyWs) (l := s)
    exact hasCWP_suffix_false (s.takeWhile isPyWs) (s.dropWhile isPyWs) (by rw [this]; exact h)
  obtain ⟨w, hw⟩ := dropEndWhile_decomp isPyWs (s.dropWhile isPyWs)
  have h2 : hasCommaWsParen (dropEndWhile isPyWs (s.dropWhile isPyWs)) = false :=
    hasCWP_prefix_false _ w (by rw [← hw]; exact h1)
  exact h2

/-- C4 (amended): for every CREATE TABLE statement the extractor produces
exactly one ForeignKeyConstraint descriptor per matched inline FOREIGN KEY
clause, each with its owner and referenced column passed through
`.strip().strip('"')` (quoting stripped); and the rewritten statement
contains no comma dangling before a closing parenthesis provided the text
left after removing the FOREIGN KEY lines has no two commas separated only
by whitespace and still ends with `)` after the comma repair and trimming —
conditions met in particular when each FOREIGN KEY clause occupies its own
line and the closing parenthesis of the column list sits on its own line.
(When the closing parenthesis instead shares the FOREIGN KEY clause's line,
the rewrite appends `)` after the dangling comma and the statement is left
invalid.) -/
theorem stripFKStmt_contract (tname stmt : List Char)
    (h1 : hasCommaWsComma (pyJoinWith (strL "\n")
      ((pySplitChar '\n' stmt).filter (fun l => !isFKLine l))) = false)
    (h2 : pyEndsWith (pyStrip (commaSub (pyJoinWith (strL "\n")
      ((pySplitChar '\n' stmt).filter (fun l => !isFKLine l))))) ')' = true) :
    (fkAltersOf tname stmt).length = (fkFindAll stmt).length ∧
    fkAltersOf tname stmt = (fkFindAll stmt).map (fun caps =>
      (tname, pyStripQuote (pyStrip caps.1), caps.2.1, pyStripQuote (pyStrip caps.2.2))) ∧
    hasCommaWsParen (stripFKStmt stmt) = false := by
  refine ⟨by simp [fkAltersOf], rfl, ?_⟩
  simp only [stripFKStmt, h2, if_true]
  apply pyStrip_no_cwp
  exact commaSub_no_cwp _ _ (le_refl _) h1

/-- Witness for C4 (amended) at a well-formed statement: one FK clause on its
own line, closing parenthesis on its own line; one descriptor is produced and
the rewrite leaves no dangling comma. -/
theorem stripFKStmt_contract_witness :
    (fkAltersOf (strL "t")
      (strL "CREATE TABLE t (\na INT,\nFOREIGN KEY (a) REFERENCES u (b)\n)")).length =
      (fkFindAll (strL "CREATE TABLE t (\na INT,\nFOREIGN KEY (a) REFERENCES u (b)\n)")).length ∧
    hasCommaWsParen (stripFKStmt
      (strL "CREATE TABLE t (\na INT,\nFOREIGN KEY (a) REFERENCES u (b)\n)")) = false :=
  ⟨(stripFKStmt_contract (strL "t")
      (strL "CREATE TABLE t (\na INT,\nFOREIGN KEY (a) REFERENCES u (b)\n)")
      (by decide) (by decide)).1,
   (stripFKStmt_contract (strL "t")
      (strL "CREATE TABLE t (\na INT,\nFOREIGN KEY (a) REFERENCES u (b)\n)")
      (by decide) (by decide)).2.2⟩
